import Mathlib

/-!
Verification development for the `ifs_autotune` desktop orchestrator
(`src/desktop/main.js`, with the progress listener in
`src/frontend/src/App.tsx`).

The JavaScript is shallowly embedded: byte/character streams become
`List Char`, JavaScript strings become `String` (with an explicit `jsTrim`
mirroring `String.prototype.trim`), JavaScript numbers become `ℚ` with
`Option ℚ` where `NaN`/absence matters, and the results of `JSON.parse`
are abstracted to the fields the orchestrator actually inspects
(`status`, `end_year`, `base_year`, `pathChecks`, `valid`).
-/

namespace IfsDesktop

/-- Whitespace recognized when trimming, covering the characters the
orchestrator ever meets on its line-oriented protocol (space, tab, CR, LF,
vertical tab, form feed); mirrors JavaScript whitespace for this alphabet. -/
def isJsWs (c : Char) : Bool :=
  c = ' ' || c = '\t' || c = '\r' || c = '\n' || c = '\x0b' || c = '\x0c'

/-- Trim leading and trailing whitespace from a character list, as
`String.prototype.trim` does. -/
def trimChars (l : List Char) : List Char :=
  ((l.dropWhile isJsWs).reverse.dropWhile isJsWs).reverse

/-- `s.trim()` on an embedded JavaScript string. -/
def jsTrim (s : String) : String :=
  String.mk (trimChars s.data)

/-!
### Line buffering (`pythonProcess.stdout.on('data')` in `launchIFsRun`)

The handler appends each chunk to `stdoutBuffer`, splits on `/\r?\n/`, and
pops the final element back into the buffer:

```
stdoutBuffer += chunk;
const lines = stdoutBuffer.split(/\r?\n/);
stdoutBuffer = lines.pop() ?? '';
lines.forEach(handleStdoutLine);
```

`splitCR s` returns the pair (complete lines, trailing partial line), i.e.
`(lines-after-pop, popped-buffer)` for the JavaScript split.  A `\n` always
ends a line and consumes one immediately preceding `\r`, exactly as the
regex `/\r?\n/` matches left to right.
-/

/-- Split a character stream on `/\r?\n/` separators; the first component
is the list of completed lines, the second the trailing partial line. -/
def splitCR : List Char → List (List Char) × List Char
  | [] => ([], [])
  | [c] =>
    if c = '\n' then ([[]], []) else ([], [c])
  | c :: d :: rest =>
    if c = '\n' then
      let p := splitCR (d :: rest)
      ([] :: p.1, p.2)
    else if c = '\r' ∧ d = '\n' then
      let p := splitCR rest
      ([] :: p.1, p.2)
    else
      let p := splitCR (d :: rest)
      match p.1 with
      | [] => ([], c :: p.2)
      | l :: ls => ((c :: l) :: ls, p.2)

theorem splitCR_newline (u : List Char) :
    splitCR ('\n' :: u) = ([] :: (splitCR u).1, (splitCR u).2) := by
  cases u with
  | nil => simp [splitCR]
  | cons d rest => simp [splitCR]

theorem splitCR_crlf (u : List Char) :
    splitCR ('\r' :: '\n' :: u) = ([] :: (splitCR u).1, (splitCR u).2) := by
  simp [splitCR]

theorem splitCR_content (c : Char) (u : List Char)
    (hc : c ≠ '\n') (hcr : ¬ (c = '\r' ∧ u.head? = some '\n')) :
    splitCR (c :: u) =
      (match (splitCR u).1 with
       | [] => ([], c :: (splitCR u).2)
       | l :: ls => ((c :: l) :: ls, (splitCR u).2)) := by
  cases u with
  | nil => simp [splitCR, hc]
  | cons d rest =>
    have hcd : ¬ (c = '\r' ∧ d = '\n') := by
      intro h
      exact hcr ⟨h.1, by simp [h.2]⟩
    simp only [splitCR, if_neg hc, if_neg hcd]

/-- If splitting produced no complete line, the stream had no separator and
the whole stream is the trailing partial line. -/
theorem splitCR_fst_nil : ∀ s : List Char, (splitCR s).1 = [] → (splitCR s).2 = s := by
  intro s
  induction s with
  | nil => simp [splitCR]
  | cons c u ih =>
    intro h
    by_cases hc : c = '\n'
    · subst hc
      rw [splitCR_newline] at h
      simp at h
    · by_cases hcr : c = '\r' ∧ u.head? = some '\n'
      · obtain ⟨hc', hd⟩ := hcr
        subst hc'
        cases u with
        | nil => simp at hd
        | cons d rest =>
          simp at hd
          subst hd
          rw [splitCR_crlf] at h
          simp at h
      · rw [splitCR_content c u hc hcr] at h ⊢
        cases hfst : (splitCR u).1 with
        | nil =>
          simp only [hfst] at h ⊢
          simp [ih hfst]
        | cons l ls =>
          simp [hfst] at h

/-- The trailing partial line never contains a newline. -/
theorem splitCR_snd_no_newline : ∀ s : List Char, '\n' ∉ (splitCR s).2 := by
  intro s
  induction s with
  | nil => simp [splitCR]
  | cons c u ih =>
    by_cases hc : c = '\n'
    · subst hc
      rw [splitCR_newline]
      exact ih
    · by_cases hcr : c = '\r' ∧ u.head? = some '\n'
      · obtain ⟨hc', hd⟩ := hcr
        subst hc'
        cases u with
        | nil => simp at hd
        | cons d rest =>
          simp at hd
          subst hd
          rw [splitCR_crlf]
          rw [splitCR_newline] at ih
          exact ih
      · rw [splitCR_content c u hc hcr]
        cases hfst : (splitCR u).1 with
        | nil =>
          simp only [hfst]
          simp only [List.mem_cons, not_or]
          exact ⟨fun h => hc h.symm, ih⟩
        | cons l ls =>
          simp only [hfst]
          exact ih

/-- A newline-free stream splits into no complete line and itself as the
trailing partial line. -/
theorem splitCR_of_no_newline : ∀ s : List Char, '\n' ∉ s → splitCR s = ([], s) := by
  intro s
  induction s with
  | nil => intro _; simp [splitCR]
  | cons c u ih =>
    intro h
    simp only [List.mem_cons, not_or] at h
    obtain ⟨hc, hu⟩ := h
    have hc' : c ≠ '\n' := fun hh => hc hh.symm
    have hcr : ¬ (c = '\r' ∧ u.head? = some '\n') := by
      rintro ⟨_, hd⟩
      cases u with
      | nil => simp at hd
      | cons d rest =>
        simp at hd
        exact hu (by simp [hd])
    rw [splitCR_content c u hc' hcr, ih hu]

/-- Splitting a concatenation: the completed lines of `s` are final, and
the trailing partial line of `s` is re-examined together with `t`.  This is
the compositionality fact behind chunking-independence of the stdout line
buffer. -/
theorem splitCR_append : ∀ s t : List Char,
    splitCR (s ++ t) =
      ((splitCR s).1 ++ (splitCR ((splitCR s).2 ++ t)).1,
        (splitCR ((splitCR s).2 ++ t)).2) := by
  intro s
  induction s with
  | nil => intro t; simp [splitCR]
  | cons c u ih =>
    intro t
    by_cases hc : c = '\n'
    · subst hc
      rw [List.cons_append, splitCR_newline, splitCR_newline, ih t]
      simp
    · by_cases hcr : c = '\r' ∧ u.head? = some '\n'
      · obtain ⟨hc', hd⟩ := hcr
        subst hc'
        cases u with
        | nil => simp at hd
        | cons d rest =>
          simp at hd
          subst hd
          rw [List.cons_append, List.cons_append, splitCR_crlf, splitCR_crlf]
          have ihrest : splitCR (rest ++ t) =
              ((splitCR rest).1 ++ (splitCR ((splitCR rest).2 ++ t)).1,
                (splitCR ((splitCR rest).2 ++ t)).2) := by
            have h := ih
            rw [splitCR_newline] at h
            -- `ih` is about '\n' :: rest; recover the statement about rest
            have h' := h t
            rw [List.cons_append, splitCR_newline] at h'
            simp only [Prod.ext_iff] at h' ⊢
            exact ⟨by simpa using h'.1, h'.2⟩
          rw [ihrest]
          simp
      · cases u with
        | nil =>
          -- single content character: both sides reduce to splitCR (c :: t)
          have h1 : splitCR [c] = ([], [c]) := by
            simp [splitCR, hc]
          rw [List.singleton_append, h1]
          simp
        | cons d rest =>
          have hd : (d :: rest ++ t).head? = (d :: rest : List Char).head? := by
            simp
          have hcrt : ¬ (c = '\r' ∧ ((d :: rest) ++ t).head? = some '\n') := by
            rw [hd]; exact hcr
          rw [List.cons_append, splitCR_content c ((d :: rest) ++ t) hc hcrt,
            splitCR_content c (d :: rest) hc hcr, ih t]
          cases hfst : (splitCR (d :: rest)).1 with
          | nil =>
            have hsnd := splitCR_fst_nil (d :: rest) hfst
            simp only [hfst, hsnd, List.nil_append]
            -- right side is splitCR (c :: (d :: rest ++ t)) examined afresh
            have hcrt' : ¬ (c = '\r' ∧ (d :: (rest ++ t)).head? = some '\n') := by
              simpa using hcrt
            simp only [List.cons_append]
            rw [splitCR_content c (d :: (rest ++ t)) hc hcrt']
          | cons l ls =>
            simp only [hfst, List.cons_append]

/-- One `'data'` event: append the chunk to the buffer, split, emit the
completed lines, keep the popped trailing part as the new buffer. -/
def stepChunk (st : List (List Char) × List Char) (chunk : List Char) :
    List (List Char) × List Char :=
  let p := splitCR (st.2 ++ chunk)
  (st.1 ++ p.1, p.2)

/-- Process a whole sequence of stdout chunks from an empty buffer,
returning the lines handed to `handleStdoutLine` and the final buffer. -/
def runChunks (chunks : List (List Char)) : List (List Char) × List Char :=
  chunks.foldl stepChunk ([], [])

/-- The `'close'` handler flushes a non-empty trailing buffer as a final
line (`if (stdoutBuffer) handleStdoutLine(stdoutBuffer)`). -/
def linesWithFlush (chunks : List (List Char)) : List (List Char) :=
  let r := runChunks chunks
  r.1 ++ (if r.2 = [] then [] else [r.2])

theorem runChunks_foldl : ∀ (chunks : List (List Char))
    (acc : List (List Char)) (buf : List Char), '\n' ∉ buf →
    chunks.foldl stepChunk (acc, buf) =
      (acc ++ (splitCR (buf ++ chunks.flatten)).1, (splitCR (buf ++ chunks.flatten)).2) := by
  intro chunks
  induction chunks with
  | nil =>
    intro acc buf hbuf
    simp [splitCR_of_no_newline buf hbuf]
  | cons ch chs ih =>
    intro acc buf hbuf
    rw [List.foldl_cons]
    have hstep : stepChunk (acc, buf) ch =
        (acc ++ (splitCR (buf ++ ch)).1, (splitCR (buf ++ ch)).2) := rfl
    rw [hstep, ih _ _ (splitCR_snd_no_newline (buf ++ ch))]
    have hjoin : buf ++ (ch :: chs).flatten = (buf ++ ch) ++ chs.flatten := by
      simp [List.flatten]
    rw [hjoin, splitCR_append (buf ++ ch) chs.flatten]
    simp

/-!
### Line classification (`handleStdoutLine` in `launchIFsRun`)

Each complete line is trimmed; empty lines are dropped; lines matching
`/^Year\s+(\d{1,4})/i` become progress reports; all other lines are pushed
onto `jsonCandidates`.
-/

/-- `Number` applied to the captured digit group. -/
def digitsToNat (ds : List Char) : ℕ :=
  ds.foldl (fun n c => 10 * n + (c.toNat - 48)) 0

/-- Match `/^Year\s+(\d{1,4})/i` against a (trimmed) line and extract the
year: a case-insensitive `Year` head, at least one whitespace, then one to
four digits (greedy). -/
def yearOf : List Char → Option ℕ
  | c1 :: c2 :: c3 :: c4 :: rest =>
    if c1.toLower = 'y' ∧ c2.toLower = 'e' ∧ c3.toLower = 'a' ∧ c4.toLower = 'r' then
      let ws := rest.takeWhile isJsWs
      let after := rest.dropWhile isJsWs
      let digits := (after.takeWhile Char.isDigit).take 4
      if ws ≠ [] ∧ digits ≠ [] then some (digitsToNat digits) else none
    else none
  | _ => none

/-- What `handleStdoutLine` does with one complete line. -/
inductive LineAction where
  | skip
  | progress (year : ℕ)
  | candidate (line : List Char)
deriving DecidableEq

/-- `handleStdoutLine`: trim, drop empties, classify as progress marker or
structured-result candidate. -/
def handleStdoutLine (l : List Char) : LineAction :=
  let t := trimChars l
  if t = [] then .skip
  else
    match yearOf t with
    | some y => .progress y
    | none => .candidate t

/-- C7: line buffering is chunking-independent.  For any two ways of
partitioning the same character stream into stdout `'data'` chunks, the
sequence of complete lines passed to `handleStdoutLine` — with the trailing
partial line flushed at process exit — is identical, and hence so is the
sequence of classified line actions (progress events and structured-result
candidates). -/
theorem stdout_line_buffering_chunking_independent
    (c1 c2 : List (List Char)) (h : c1.flatten = c2.flatten) :
    linesWithFlush c1 = linesWithFlush c2 ∧
    (linesWithFlush c1).map handleStdoutLine = (linesWithFlush c2).map handleStdoutLine := by
  have key : ∀ cs : List (List Char),
      linesWithFlush cs =
        (splitCR cs.flatten).1 ++
          (if (splitCR cs.flatten).2 = [] then [] else [(splitCR cs.flatten).2]) := by
    intro cs
    unfold linesWithFlush runChunks
    rw [runChunks_foldl cs [] [] (by simp)]
    simp
  refine ⟨?_, ?_⟩
  · rw [key c1, key c2, h]
  · rw [key c1, key c2, h]

theorem stdout_line_buffering_chunking_independent_witness :
    linesWithFlush ["ab\r".data, "\ncd".data] = linesWithFlush ["ab\r\ncd".data] ∧
    (linesWithFlush ["ab\r".data, "\ncd".data]).map handleStdoutLine =
      (linesWithFlush ["ab\r\ncd".data]).map handleStdoutLine :=
  stdout_line_buffering_chunking_independent
    ["ab\r".data, "\ncd".data] ["ab\r\ncd".data] (by decide)

/-!
### Percent computation (`clampPercent` / `computePercent` in
`launchIFsRun`, and `calculateProgressPercentage` in `App.tsx`)

Numbers are embedded as `ℚ`; a `baseYear : Option ℚ` of `none` models a
non-finite (`null`/`NaN`) base year, in which case `computePercent`
returns `undefined` (here `none`).
-/

/-- `Math.max(0, Math.min(100, value))`. -/
def clampPercent (x : ℚ) : ℚ := max 0 (min 100 x)

/-- `computePercent` from `launchIFsRun`: `undefined` without a finite base
year; the degenerate `end == base` case maps to 0/100 by comparison; the
`denominator === 0` guard is kept from the source although it is
unreachable once `end ≠ base`. -/
def computePercent (endYear : ℚ) (baseYear : Option ℚ) (year : ℚ) : Option ℚ :=
  match baseYear with
  | none => none
  | some b =>
    if endYear = b then (if endYear ≤ year then some 100 else some 0)
    else if endYear - b = 0 then none
    else some (clampPercent ((year - b) / (endYear - b) * 100))

/-- `calculateProgressPercentage` from `App.tsx` (the `currentYear`
finiteness check is vacuous here because embedded years are always
numbers). -/
def calculateProgressPercentage (currentYear : ℚ) (baseYear endYear : Option ℚ) :
    Option ℚ :=
  match baseYear, endYear with
  | some b, some e =>
    if e = b then (if e ≤ currentYear then some 100 else some 0)
    else some (min 100 (max 0 ((currentYear - b) / (e - b) * 100)))
  | _, _ => none

theorem clamp_comm (x : ℚ) : max 0 (min 100 x) = min 100 (max 0 x) := by
  rcases le_total x 0 with h | h
  · have hx : min 100 x = x := min_eq_right (by linarith)
    have h0 : max (0 : ℚ) x = 0 := max_eq_left h
    rw [hx, h0, min_eq_right (by norm_num : (0 : ℚ) ≤ 100)]
  · have h0 : max (0 : ℚ) x = x := max_eq_right h
    rw [h0]
    rcases le_total x 100 with h' | h'
    · rw [min_eq_right h', max_eq_right h]
    · rw [min_eq_left h']
      exact max_eq_right (by norm_num)

/-- C5: with a finite base year the computed percent is exactly
`clamp(0,100, (year − base) / (end − base) × 100)` when `end ≠ base`; the
degenerate `end = base` case yields 0 below the end year and 100 from it
on; the computation never fails (`none`); and the frontend computation
(`calculateProgressPercentage`) agrees with the orchestrator computation
(`computePercent`). -/
theorem compute_percent_formula (endY b year : ℚ) :
    (endY ≠ b →
      computePercent endY (some b) year =
        some (clampPercent ((year - b) / (endY - b) * 100))) ∧
    (endY = b →
      computePercent endY (some b) year = some (if endY ≤ year then 100 else 0)) ∧
    computePercent endY (some b) year ≠ none ∧
    calculateProgressPercentage year (some b) (some endY) =
      computePercent endY (some b) year := by
  refine ⟨?_, ?_, ?_, ?_⟩
  · intro h
    have hd : endY - b ≠ 0 := sub_ne_zero.mpr h
    simp [computePercent, h, hd]
  · intro h
    simp only [computePercent, if_pos h]
    split <;> simp_all
  · by_cases h : endY = b
    · simp only [computePercent, if_pos h]
      split <;> simp
    · have hd : endY - b ≠ 0 := sub_ne_zero.mpr h
      simp [computePercent, h, hd]
  · by_cases h : endY = b
    · simp [calculateProgressPercentage, computePercent, h]
    · have hd : endY - b ≠ 0 := sub_ne_zero.mpr h
      simp only [calculateProgressPercentage, computePercent, if_neg h, if_neg hd,
        clampPercent, clamp_comm]

theorem compute_percent_formula_witness :
    computePercent 2050 (some 2000) 2030 =
      some (clampPercent ((2030 - 2000) / (2050 - 2000) * 100)) ∧
    computePercent 2000 (some 2000) 1999 =
      some (if (2000 : ℚ) ≤ 1999 then 100 else 0) :=
  ⟨(compute_percent_formula 2050 2000 2030).1 (by norm_num),
   (compute_percent_formula 2000 2000 1999).2.1 rfl⟩

/-!
### Progress events (`sendProgress` in `launchIFsRun`)

`sendProgress(year, explicitPercent)` resolves a percent (an explicit
finite number is clamped, otherwise `computePercent(year)`), skips the
call when the year equals the previously recorded year and the resolved
percent is `null` or equal to the previously recorded percent, and
otherwise records the year (always) and the percent (when non-null) and
emits an `ifs-progress` payload `{year, percent?}`.  The embedding assumes
`mainWindow` stays alive for the invocation; a destroyed window only
suppresses the whole call and records nothing.
-/

/-- An `ifs-progress` payload: `{year, percent}` or `{year}`. -/
structure ProgEvent where
  year : ℚ
  percent : Option ℚ
deriving DecidableEq, Repr

/-- One call to `sendProgress`: the year plus the optional
`explicitPercent` argument (present only for the final success payload). -/
structure ProgCall where
  year : ℚ
  explicit : Option ℚ
deriving DecidableEq, Repr

/-- Mutable closure state of one `launchIFsRun` invocation: `lastYear`,
`lastPercent`, and the events emitted so far on the `ifs-progress`
channel. -/
structure ProgState where
  lastYear : Option ℚ
  lastPercent : Option ℚ
  emitted : List ProgEvent
deriving DecidableEq, Repr

/-- The resolved percent of one call: a finite explicit percent is
clamped, otherwise the percent is computed from the year. -/
def resolvedPercent (endYear : ℚ) (baseYear : Option ℚ) (c : ProgCall) : Option ℚ :=
  match c.explicit with
  | some p => some (clampPercent p)
  | none => computePercent endYear baseYear c.year

/-- `if (resolvedPercent != null) lastPercent = resolvedPercent`: the
recorded percent is overwritten only by a non-null resolved percent. -/
def updatedPercent (rp old : Option ℚ) : Option ℚ :=
  match rp with
  | some p => some p
  | none => old

/-- `sendProgress` as a state transition. -/
def sendProgress (endYear : ℚ) (baseYear : Option ℚ) (st : ProgState) (c : ProgCall) :
    ProgState :=
  let rp := resolvedPercent endYear baseYear c
  if st.lastYear = some c.year ∧ (rp = none ∨ rp = st.lastPercent) then st
  else
    { lastYear := some c.year
      lastPercent := updatedPercent rp st.lastPercent
      emitted := st.emitted ++ [⟨c.year, rp⟩] }

/-- The state after a sequence of `sendProgress` calls in one invocation. -/
def runProgress (endYear : ℚ) (baseYear : Option ℚ) (calls : List ProgCall) : ProgState :=
  calls.foldl (sendProgress endYear baseYear) ⟨none, none, []⟩

/-- No two consecutive emitted events agree on both year and percent. -/
def distinctConsecutive (l : List ProgEvent) : Prop :=
  List.Chain' (fun a b => a.year ≠ b.year ∨ a.percent ≠ b.percent) l

/-- Invariant tying the closure variables to the emitted events: the
recorded year is the last emitted year, and whenever the last emitted
event carried a percent, it is the recorded percent. -/
def progInv (st : ProgState) : Prop :=
  distinctConsecutive st.emitted ∧
  ∀ e, st.emitted.getLast? = some e →
    st.lastYear = some e.year ∧ ∀ p, e.percent = some p → st.lastPercent = some p

theorem sendProgress_inv (endYear : ℚ) (baseYear : Option ℚ) (st : ProgState)
    (c : ProgCall) (h : progInv st) :
    progInv (sendProgress endYear baseYear st c) := by
  obtain ⟨hchain, hlast⟩ := h
  unfold sendProgress
  set rp := resolvedPercent endYear baseYear c
  by_cases hguard : st.lastYear = some c.year ∧ (rp = none ∨ rp = st.lastPercent)
  · rw [if_pos hguard]
    exact ⟨hchain, hlast⟩
  · rw [if_neg hguard]
    have hfresh : ∀ e, st.emitted.getLast? = some e →
        e.year ≠ c.year ∨ e.percent ≠ rp := by
      intro e he
      obtain ⟨hy', hp'⟩ := hlast e he
      by_cases hyear : e.year = c.year
      · right
        intro hpe
        apply hguard
        constructor
        · rw [hy', hyear]
        · rcases hq : rp with _ | p
          · exact Or.inl rfl
          · right
            have hep : e.percent = some p := by rw [hpe, hq]
            rw [hp' p hep]
      · exact Or.inl hyear
    constructor
    · show List.Chain' (fun a b => a.year ≠ b.year ∨ a.percent ≠ b.percent)
        (st.emitted ++ [⟨c.year, rp⟩])
      rw [List.chain'_append]
      refine ⟨hchain, List.chain'_singleton _, ?_⟩
      intro e he y hy
      simp only [List.head?_cons, Option.mem_some_iff] at hy
      subst hy
      exact hfresh e he
    · intro e he
      have he' : (st.emitted ++ [(⟨c.year, rp⟩ : ProgEvent)]).getLast? = some e := he
      rw [List.getLast?_concat] at he'
      injection he' with hee
      subst hee
      refine ⟨rfl, ?_⟩
      intro p hp
      have hp2 : rp = some p := hp
      show updatedPercent rp st.lastPercent = some p
      rw [hp2]
      rfl

theorem runProgress_inv (endYear : ℚ) (baseYear : Option ℚ) (calls : List ProgCall) :
    progInv (runProgress endYear baseYear calls) := by
  unfold runProgress
  have general : ∀ (cs : List ProgCall) (st : ProgState), progInv st →
      progInv (cs.foldl (sendProgress endYear baseYear) st) := by
    intro cs
    induction cs with
    | nil => intro st h; exact h
    | cons c cs ih =>
      intro st h
      exact ih _ (sendProgress_inv endYear baseYear st c h)
  refine general calls _ ⟨?_, ?_⟩
  · exact List.chain'_nil
  · intro e he; simp at he

/-- C6: progress events are de-duplicated — for every sequence of
`sendProgress` calls in one `launchIFsRun` invocation, no two consecutive
events emitted on the `ifs-progress` channel carry the same
(year, percent) pair; an event is emitted only when the year or the
resolved percent changed relative to the recorded state. -/
theorem progress_events_deduplicated (endYear : ℚ) (baseYear : Option ℚ)
    (calls : List ProgCall) :
    distinctConsecutive (runProgress endYear baseYear calls).emitted :=
  (runProgress_inv endYear baseYear calls).1

/-- The `ifs-progress` events produced by a sequence of stdout lines during
one `launchIFsRun` invocation: each completed line is classified by
`handleStdoutLine`, and progress markers feed `sendProgress(year)` with no
explicit percent. -/
def runProgressOfLines (endYear : ℚ) (baseYear : Option ℚ)
    (lines : List (List Char)) : ProgState :=
  lines.foldl
    (fun st l =>
      match handleStdoutLine l with
      | .progress y => sendProgress endYear baseYear st ⟨(y : ℚ), none⟩
      | _ => st)
    ⟨none, none, []⟩

/-- Comparison of the percent fields of two events; events without a
percent field constrain nothing. -/
def percentsLE (a b : ProgEvent) : Bool :=
  match a.percent, b.percent with
  | some p, some q => decide (p ≤ q)
  | _, _ => true

/-- The claimed property of C2: the percent values carried on the channel
never decrease. -/
def percentsNonDecreasing (l : List ProgEvent) : Prop :=
  List.Chain' (fun a b => percentsLE a b = true) l

theorem clampPercent_of_bounds (q : ℚ) (h0 : 0 ≤ q) (h100 : q ≤ 100) :
    clampPercent q = q := by
  unfold clampPercent
  rw [min_eq_right h100, max_eq_right h0]

theorem computePercent_sixty :
    computePercent 2050 (some 2000) (2030 : ℚ) = some 60 := by
  simp only [computePercent]
  rw [if_neg (by norm_num), if_neg (by norm_num)]
  have hval : ((2030 : ℚ) - 2000) / (2050 - 2000) * 100 = 60 := by norm_num
  rw [hval, clampPercent_of_bounds 60 (by norm_num) (by norm_num)]

theorem computePercent_forty :
    computePercent 2050 (some 2000) (2020 : ℚ) = some 40 := by
  simp only [computePercent]
  rw [if_neg (by norm_num), if_neg (by norm_num)]
  have hval : ((2020 : ℚ) - 2000) / (2050 - 2000) * 100 = 40 := by norm_num
  rw [hval, clampPercent_of_bounds 40 (by norm_num) (by norm_num)]

theorem runProgress_decreasing_example :
    runProgressOfLines 2050 (some 2000) ["Year 2030".data, "Year 2020".data] =
      ⟨some 2020, some 40, [⟨2030, some 60⟩, ⟨2020, some 40⟩]⟩ := by
  have hl1 : handleStdoutLine "Year 2030".data = .progress 2030 := by decide
  have hl2 : handleStdoutLine "Year 2020".data = .progress 2020 := by decide
  have hs1 : sendProgress 2050 (some 2000) ⟨none, none, []⟩ ⟨2030, none⟩ =
      ⟨some 2030, some 60, [⟨2030, some 60⟩]⟩ := by
    unfold sendProgress
    rw [if_neg (by simp)]
    simp [resolvedPercent, computePercent_sixty, updatedPercent]
  have hs2 : sendProgress 2050 (some 2000)
      ⟨some 2030, some 60, [⟨2030, some 60⟩]⟩ ⟨2020, none⟩ =
      ⟨some 2020, some 40, [⟨2030, some 60⟩, ⟨2020, some 40⟩]⟩ := by
    unfold sendProgress
    rw [if_neg (by norm_num)]
    simp [resolvedPercent, computePercent_forty, updatedPercent]
  unfold runProgressOfLines
  rw [List.foldl_cons, List.foldl_cons, List.foldl_nil]
  simp only [hl1, hl2, Nat.cast_ofNat]
  rw [hs1, hs2]

/-- C2 fails on the code: the subprocess line sequence
`["Year 2030", "Year 2020"]` with base year 2000 and end year 2050 makes
`launchIFsRun` emit percent 60 followed by percent 40 on the
`ifs-progress` channel — the emitted percent sequence is not
non-decreasing. -/
theorem progress_channel_percent_can_decrease :
    (runProgressOfLines 2050 (some 2000) ["Year 2030".data, "Year 2020".data]).emitted
        = [⟨2030, some 60⟩, ⟨2020, some 40⟩] ∧
    ¬ percentsNonDecreasing
        (runProgressOfLines 2050 (some 2000) ["Year 2030".data, "Year 2020".data]).emitted := by
  rw [runProgress_decreasing_example]
  refine ⟨rfl, ?_⟩
  intro hchain
  unfold percentsNonDecreasing at hchain
  rw [List.chain'_cons] at hchain
  have h := hchain.1
  simp only [percentsLE, decide_eq_true_eq] at h
  norm_num at h

/-!
### The frontend subscriber (`App.tsx`)

The monotone quantity in the implementation is not the channel payload but
the `progressPercent` React state: the subscriber clamps the incoming (or
recomputed) percent and takes the maximum with the previous value.
-/

/-- The percent the subscriber works with: the event's own finite percent
if present, otherwise `calculateProgressPercentage` over the remembered
base/target years. -/
def frontendComputed (baseYear endYear : Option ℚ) (e : ProgEvent) : Option ℚ :=
  match e.percent with
  | some p => some p
  | none => calculateProgressPercentage e.year baseYear endYear

/-- One `setProgressPercent` update: keep the previous value when no
percent is computable, otherwise `max previous (clamp computed)`. -/
def frontendStep (baseYear endYear : Option ℚ) (prev : ℚ) (e : ProgEvent) : ℚ :=
  match frontendComputed baseYear endYear e with
  | none => prev
  | some c => max prev (min 100 (max 0 c))

theorem frontendStep_le (baseYear endYear : Option ℚ) (prev : ℚ) (e : ProgEvent) :
    prev ≤ frontendStep baseYear endYear prev e := by
  unfold frontendStep
  cases frontendComputed baseYear endYear e with
  | none => exact le_refl prev
  | some c => exact le_max_left _ _

/-- C2 (amended): the percent displayed by the frontend subscriber is
non-decreasing across any sequence of `ifs-progress` events — each update
takes the maximum of the previous value and the clamped incoming percent —
even though the percent values carried on the channel themselves may
decrease. -/
theorem frontend_progress_percent_monotone (baseYear endYear : Option ℚ)
    (events : List ProgEvent) (init : ℚ) :
    List.Chain' (· ≤ ·) (events.scanl (frontendStep baseYear endYear) init) := by
  induction events generalizing init with
  | nil => simp
  | cons e es ih =>
    rw [List.scanl_cons]
    simp only [List.cons_append, List.nil_append]
    refine List.chain'_cons'.mpr ⟨?_, ih _⟩
    intro y hy
    have hhead : (es.scanl (frontendStep baseYear endYear)
        (frontendStep baseYear endYear init e)).head? =
        some (frontendStep baseYear endYear init e) := by
      cases es <;> simp [List.scanl]
    rw [hhead] at hy
    simp only [Option.mem_some_iff] at hy
    subst hy
    exact frontendStep_le baseYear endYear init e

/-!
### Parsed payloads and the close handlers

A stdout line fed to `JSON.parse` is abstracted by `Option JVal`: `none`
when parsing throws, `some v` otherwise, keeping just the fields the
handlers inspect.  `JVal.jnull` stands for any falsy parse result
(`null`, `0`, `""`, `false`); `JVal.jobj` carries the `status`,
`end_year` and `base_year` fields (absent or non-string/non-finite
values become `none`).
-/

inductive JVal where
  | jnull
  | jobj (status : Option String) (endYear : Option ℚ) (baseYear : Option ℚ)
deriving DecidableEq, Repr

/-- `parsed && (parsed.status === 'success' || parsed.status === 'error')`. -/
def recognizedStatus : JVal → Bool
  | .jobj (some s) _ _ => s == "success" || s == "error"
  | _ => false

/-- `parsed && parsed.status === t`. -/
def statusIs (v : JVal) (t : String) : Bool :=
  match v with
  | .jobj (some s) _ _ => s == t
  | _ => false

/-- What a stage invocation resolves with: a parsed payload
(`finish(parsed)`) or an error object `{status:'error', message}`. -/
inductive RunResult where
  | payload (v : JVal)
  | failure (message : String)
deriving DecidableEq, Repr

/-- The `model_setup` close-handler loop, iterating from the last line
toward the first: skip lines that fail to parse, stop at the first line
(from the end) whose parse is truthy with status `success` or `error`. -/
def setupScanRev : List (Option JVal) → Option JVal
  | [] => none
  | none :: rest => setupScanRev rest
  | some v :: rest => if recognizedStatus v then some v else setupScanRev rest

/-- The `launchIFsRun` close-handler loop, iterating from the last
candidate toward the first: skip lines that fail to parse, and `break` at
the first line (from the end) that parses at all, whatever its status. -/
def runScanRev : List (Option JVal) → Option JVal
  | [] => none
  | none :: rest => runScanRev rest
  | some v :: _ => some v

/-- The scan described by the specification: the last line that both
parses and carries a recognized `success`/`error` status. -/
def claimedScan (lines : List (Option JVal)) : Option JVal :=
  ((lines.filterMap id).filter recognizedStatus).getLast?

/-- The last line that parses at all, regardless of status. -/
def lastParsed (cands : List (Option JVal)) : Option JVal :=
  (cands.filterMap id).getLast?

theorem setupScanRev_eq (l : List (Option JVal)) :
    setupScanRev l = ((l.filterMap id).filter recognizedStatus).head? := by
  induction l with
  | nil => rfl
  | cons o rest ih =>
    cases o with
    | none => simpa [setupScanRev] using ih
    | some v =>
      by_cases h : recognizedStatus v
      · simp [setupScanRev, h, List.filter_cons]
      · simp [setupScanRev, h, List.filter_cons, ih]

theorem runScanRev_eq (l : List (Option JVal)) :
    runScanRev l = (l.filterMap id).head? := by
  induction l with
  | nil => rfl
  | cons o rest ih =>
    cases o with
    | none => simpa [runScanRev] using ih
    | some v => simp [runScanRev]

/-- The `model_setup` close handler (after the stderr and empty-stdout
checks, the backward scan over the split stdout lines). -/
def setupClose (stderr : String) (lines : List (Option JVal)) : RunResult :=
  if jsTrim stderr ≠ "" then .failure (jsTrim stderr)
  else if lines.isEmpty then .failure "No response from model setup."
  else
    match setupScanRev lines.reverse with
    | some v => .payload v
    | none => .failure "Unexpected response from model setup."

/-- The `launchIFsRun` close handler: stderr check, the
nonzero-exit-with-no-candidates check, then the backward scan with `break`
at the first parse; a parsed value without a recognized status yields the
generic fallback.  (On a `success` payload the handler additionally emits
a final progress event and may update `lastBaseYear`; those effects are
modeled by `sendProgress` and the session state.) -/
def runClose (stderr : String) (codeZero : Bool) (cands : List (Option JVal)) :
    RunResult :=
  if jsTrim stderr ≠ "" then .failure "IFs runner reported an error."
  else if ¬ codeZero ∧ cands.isEmpty then .failure "IFs runner exited unexpectedly."
  else
    match runScanRev cands.reverse with
    | some v =>
      if statusIs v "success" then .payload v
      else if statusIs v "error" then .payload v
      else .failure "Unexpected IFs runner response."
    | none => .failure "Unexpected IFs runner response."

/-- A parsed payload carrying `status:"success"`. -/
def vSuccess : JVal := .jobj (some "success") none none

/-- A parsed payload with no `status` field (for example a stray
structured log line). -/
def vNoStatus : JVal := .jobj none none none

/-- C3 fails on the code for the run stage: with candidates
`[{"status":"success"}, {"note":...}]` the specified backward scan selects
the success payload, but `launchIFsRun`'s close handler stops at the last
parseable line (which lacks a recognized status) and resolves with the
generic "Unexpected IFs runner response." error instead of continuing the
scan. -/
theorem run_close_stops_at_last_parseable :
    claimedScan [some vSuccess, some vNoStatus] = some vSuccess ∧
    runClose "" true [some vSuccess, some vNoStatus] =
      .failure "Unexpected IFs runner response." ∧
    runClose "" true [some vSuccess, some vNoStatus] ≠ .payload vSuccess := by
  refine ⟨by decide, by decide, by decide⟩

/-- C3 (amended): the setup stage scans backward for the last line that
parses with a recognized `success`/`error` status, skipping parseable
lines without one, exactly as specified; the run stage instead stops at
the last line that parses at all — `runClose` then dispatches on that
line's status and falls back to a generic error when it is unrecognized. -/
theorem backward_scan_per_stage :
    (∀ lines : List (Option JVal), setupScanRev lines.reverse = claimedScan lines) ∧
    (∀ cands : List (Option JVal), runScanRev cands.reverse = lastParsed cands) := by
  constructor
  · intro lines
    rw [setupScanRev_eq, claimedScan]
    rw [List.filterMap_reverse, List.filter_reverse, List.head?_reverse]
  · intro cands
    rw [runScanRev_eq, lastParsed]
    rw [List.filterMap_reverse, List.head?_reverse]

/-- C4 fails on the code for the run stage: a worker writing `boom` to
stderr makes `launchIFsRun` resolve with the fixed message "IFs runner
reported an error.", not with the captured text. -/
theorem run_close_generic_stderr_message :
    runClose "boom" true [] = .failure "IFs runner reported an error." ∧
    runClose "boom" true [] ≠ .failure "boom" := by
  refine ⟨by decide, by decide⟩

/-- C4 (amended): with a non-empty (trimmed) error stream the setup stage
surfaces the captured stderr text verbatim (trimmed) as its message, while
the run stage always reports the generic "IFs runner reported an error."
message regardless of the captured text; generic messages otherwise arise
only with an empty error stream. -/
theorem stderr_surfaced_per_stage (stderr : String) (lines cands : List (Option JVal))
    (codeZero : Bool) (h : jsTrim stderr ≠ "") :
    setupClose stderr lines = .failure (jsTrim stderr) ∧
    runClose stderr codeZero cands = .failure "IFs runner reported an error." := by
  unfold setupClose runClose
  rw [if_pos h, if_pos h]
  exact ⟨rfl, rfl⟩

theorem stderr_surfaced_per_stage_witness :
    setupClose " boom " [] = .failure (jsTrim " boom ") ∧
    runClose " boom " true [] = .failure "IFs runner reported an error." :=
  stderr_surfaced_per_stage " boom " [] [] true (by decide)

/-!
### Exactly-once resolution (C1)

Each stage invocation wraps its `resolve` in a `finish` guarded by a
`resolved` flag.  Every completion signal — spawn failure, the `'error'`
event, or the `'close'` event through any of its branches — performs
exactly one `finish` call; the state below records every `resolve` that
actually fires, so exactly-once resolution is
`resolutions.length = 1`.
-/

/-- The promise-side state of one invocation: the `resolved` flag and the
list of resolutions that reached `resolve`. -/
structure InvState (α : Type) where
  resolved : Bool
  resolutions : List α
deriving DecidableEq, Repr

/-- `finish(result)`: a no-op once resolved, otherwise records the
resolution and sets the flag. -/
def finishStep {α : Type} (r : α) (s : InvState α) : InvState α :=
  if s.resolved then s else ⟨true, s.resolutions ++ [r]⟩

/-- Run an invocation against a sequence of completion signals, each of
which calls `finish` once with its computed result. -/
def processSignals {σ α : Type} (f : σ → α) (sigs : List σ) : InvState α :=
  sigs.foldl (fun s sig => finishStep (f sig) s) ⟨false, []⟩

/-- Completion signals of one `launchIFsRun` invocation. -/
inductive RunSignal where
  | spawnFail
  | errorEvent (msg : Option String)
  | closeEvent (stderr : String) (codeZero : Bool) (cands : List (Option JVal))
deriving DecidableEq, Repr

/-- The result each `launchIFsRun` completion path hands to `finish`. -/
def runSignalResult : RunSignal → RunResult
  | .spawnFail => .failure "Unable to launch the IFs runner."
  | .errorEvent m => .failure (m.getD "Failed to execute IFs.")
  | .closeEvent st cz cs => runClose st cz cs

/-- Completion signals of one `model_setup` invocation. -/
inductive SetupSignal where
  | spawnFail
  | errorEvent (msg : Option String)
  | closeEvent (stderr : String) (lines : List (Option JVal))
deriving DecidableEq, Repr

/-- The result each `model_setup` completion path hands to `finish`. -/
def setupSignalResult : SetupSignal → RunResult
  | .spawnFail => .failure "Unable to launch model setup."
  | .errorEvent m => .failure (m.getD "Model setup failed.")
  | .closeEvent st ls => setupClose st ls

theorem foldl_finishStep_resolved {σ α : Type} (f : σ → α) :
    ∀ (sigs : List σ) (s : InvState α), s.resolved = true →
      sigs.foldl (fun s sig => finishStep (f sig) s) s = s := by
  intro sigs
  induction sigs with
  | nil => intro s _; rfl
  | cons x xs ih =>
    intro s h
    rw [List.foldl_cons]
    have hfin : finishStep (f x) s = s := by
      unfold finishStep
      rw [if_pos h]
    rw [hfin]
    exact ih s h

theorem processSignals_resolutions {σ α : Type} (f : σ → α) (sigs : List σ) :
    (processSignals f sigs).resolutions = (sigs.head?.map f).toList := by
  cases sigs with
  | nil => rfl
  | cons x xs =>
    unfold processSignals
    rw [List.foldl_cons]
    have h1 : finishStep (f x) ⟨false, []⟩ = ⟨true, [f x]⟩ := rfl
    rw [h1, foldl_finishStep_resolved f xs ⟨true, [f x]⟩ rfl]
    rfl

/-- C1: a stage invocation resolves exactly once.  Whatever completion
signals fire and in whatever order, the list of results that reach
`resolve` is exactly the first signal's result — every later completion
path is a no-op — and for any non-empty signal sequence the resolution
count is exactly one, for both the run stage (`launchIFsRun`) and the
setup stage (`model_setup`). -/
theorem stage_resolves_exactly_once (rs : List RunSignal) (ss : List SetupSignal) :
    (processSignals runSignalResult rs).resolutions =
      (rs.head?.map runSignalResult).toList ∧
    (processSignals setupSignalResult ss).resolutions =
      (ss.head?.map setupSignalResult).toList ∧
    (rs ≠ [] → (processSignals runSignalResult rs).resolutions.length = 1) ∧
    (ss ≠ [] → (processSignals setupSignalResult ss).resolutions.length = 1) := by
  refine ⟨processSignals_resolutions _ rs, processSignals_resolutions _ ss, ?_, ?_⟩
  · intro h
    rw [processSignals_resolutions]
    cases rs with
    | nil => exact absurd rfl h
    | cons x xs => rfl
  · intro h
    rw [processSignals_resolutions]
    cases ss with
    | nil => exact absurd rfl h
    | cons x xs => rfl

theorem stage_resolves_exactly_once_witness :
    (processSignals runSignalResult
        [.closeEvent "boom" false [], .errorEvent none]).resolutions.length = 1 ∧
    (processSignals setupSignalResult
        [.closeEvent "boom" [], .errorEvent none]).resolutions.length = 1 := by
  have h := stage_resolves_exactly_once
    [.closeEvent "boom" false [], .errorEvent none]
    [.closeEvent "boom" [], .errorEvent none]
  exact ⟨h.2.2.1 (List.cons_ne_nil _ _), h.2.2.2 (List.cons_ne_nil _ _)⟩

/-!
### Pre-spawn guards (`model_setup` handler and `launchIFsRun`)

Both handlers validate their inputs before spawning the worker:
a missing validated folder, then a non-finite or non-positive end year
(`!Number.isFinite(desiredEndYear) || desiredEndYear <= 0`), and —
for the run stage only — a missing or blank output directory.
`endYearNum = none` models a `NaN` result of `Number(...)`; an error
outcome means the handler returns before any subprocess is launched.
-/

/-- Outcome of the guard prefix: an early error result, or proceeding to
`spawn` with the accepted end year and base year. -/
inductive GuardOutcome where
  | errResult (message : String)
  | proceed (endYear : ℚ) (baseYear : Option ℚ)
deriving DecidableEq, Repr

/-- The guard prefix of `launchIFsRun`. -/
def launchGuard (lastValidatedPath : Option String) (endYearNum : Option ℚ)
    (baseYearNum : Option ℚ) (outputDir : Option String) : GuardOutcome :=
  match lastValidatedPath with
  | none => .errResult "Please validate an IFs folder first."
  | some _ =>
    match endYearNum with
    | none => .errResult "Invalid end year provided."
    | some e =>
      if e ≤ 0 then .errResult "Invalid end year provided."
      else
        match outputDir with
        | none => .errResult "Please choose an output folder before running IFs."
        | some o =>
          if jsTrim o = "" then
            .errResult "Please choose an output folder before running IFs."
          else .proceed e baseYearNum

/-- The guard prefix of the `model_setup` handler. -/
def setupGuard (lastValidatedPath : Option String) (endYearNum : Option ℚ)
    (baseYearNum : Option ℚ) : GuardOutcome :=
  match lastValidatedPath with
  | none => .errResult "Please validate an IFs folder first."
  | some _ =>
    match endYearNum with
    | none => .errResult "Invalid end year provided."
    | some e =>
      if e ≤ 0 then .errResult "Invalid end year provided."
      else .proceed e baseYearNum

/-- C8 fails on the code: a configuration with end year 2020 and base year
2025 — end strictly before base — is accepted by both the setup and the
run guards, which proceed to spawn the worker instead of failing with an
invalid-configuration error; neither handler compares the end year with
the base year. -/
theorem end_year_before_base_accepted :
    (2020 : ℚ) < 2025 ∧
    setupGuard (some "ifs-root") (some 2020) (some 2025) = .proceed 2020 (some 2025) ∧
    launchGuard (some "ifs-root") (some 2020) (some 2025) (some "out") =
      .proceed 2020 (some 2025) := by
  refine ⟨by norm_num, ?_, ?_⟩
  · simp only [setupGuard]
    rw [if_neg (by norm_num : ¬ (2020 : ℚ) ≤ 0)]
  · simp only [launchGuard]
    rw [if_neg (by norm_num : ¬ (2020 : ℚ) ≤ 0),
      if_neg (by decide : ¬ jsTrim "out" = "")]

/-- C8 (amended): the guards reject only a missing validated folder, a
non-finite or non-positive end year, and (run stage) a missing or blank
output directory; any positive finite end year is accepted and the worker
is spawned, even when the end year is strictly less than the base year. -/
theorem guards_check_only_positive_end_year (p o : String) (e b : ℚ)
    (he : 0 < e) (ho : jsTrim o ≠ "") :
    setupGuard (some p) (some e) (some b) = .proceed e (some b) ∧
    launchGuard (some p) (some e) (some b) (some o) = .proceed e (some b) := by
  have hne : ¬ e ≤ 0 := not_le.mpr he
  constructor
  · simp only [setupGuard]
    rw [if_neg hne]
  · simp only [launchGuard]
    rw [if_neg hne, if_neg ho]

theorem guards_check_only_positive_end_year_witness :
    setupGuard (some "ifs-root") (some 2020) (some 2025) = .proceed 2020 (some 2025) ∧
    launchGuard (some "ifs-root") (some 2020) (some 2025) (some "out") =
      .proceed 2020 (some 2025) :=
  guards_check_only_positive_end_year "ifs-root" "out" 2020 2025
    (by norm_num) (by decide)

/-!
### The `validate-ifs-folder` handler and the session state

`normalizeValidationPayload` accepts a string, an object with any of the
recognized path fields (a non-string field counts as absent), or anything
else.  The handler resolves through `finish`, which pushes the payload
through `ensurePathChecks` and updates the module-level session state
(`lastValidatedPath`, `lastBaseYear`) according to the payload's `valid`
field — only when the field is present (`hasOwnProperty('valid')`).
`path.resolve` is modeled as the identity (it never turns a non-empty
path into an empty one or vice versa).
-/

/-- The normalized triple of paths extracted from the raw payload. -/
structure Normalized where
  ifsPath : Option String
  outputPath : Option String
  inputFilePath : Option String
deriving DecidableEq, Repr

/-- `cleaned`: trim, and turn a blank string into `null`. -/
def cleanedPath (v : Option String) : Option String :=
  match v with
  | none => none
  | some s => if jsTrim s = "" then none else some (jsTrim s)

/-- The raw IPC payload: a plain string, an object whose recognized fields
are string-valued or absent, or any other value. -/
inductive RawPayload where
  | str (s : String)
  | obj (ifsPath path folderPath outputPath outputDirectory inputFilePath
      inputFile : Option String)
  | other
deriving DecidableEq, Repr

/-- `normalizeValidationPayload` from `main.js`. -/
def normalizeValidationPayload : RawPayload → Normalized
  | .str s => ⟨cleanedPath (some s), none, none⟩
  | .other => ⟨none, none, none⟩
  | .obj ifsP pathF folderP outP outDir inFP inF =>
    ⟨cleanedPath (ifsP <|> pathF <|> folderP),
      cleanedPath (outP <|> outDir),
      cleanedPath (inFP <|> inF)⟩

/-- One entry of the `pathChecks` record (only `displayPath` is ever read
back by the handler). -/
structure PathCheck where
  displayPath : Option String
deriving DecidableEq, Repr

/-- The `pathChecks` record with its three mandatory entries. -/
structure PathChecks where
  ifsFolder : PathCheck
  outputFolder : PathCheck
  inputFile : PathCheck
deriving DecidableEq, Repr

/-- The `pathChecks` of `createFallbackValidation`. -/
def fallbackPathChecks (n : Normalized) : PathChecks :=
  ⟨⟨n.ifsPath⟩, ⟨n.outputPath⟩, ⟨n.inputFilePath⟩⟩

/-- The fields of a validation result inspected by the handler and its
callers. -/
structure VResult where
  valid : Option Bool
  pathChecks : Option PathChecks
  baseYear : Option ℚ
deriving DecidableEq, Repr

/-- `createFallbackValidation`: `valid:false` with the three-entry
fallback `pathChecks`. -/
def fallbackValidation (n : Normalized) : VResult :=
  ⟨some false, some (fallbackPathChecks n), none⟩

/-- A successfully parsed stdout payload: either not an object, or an
object with optional `pathChecks`, `valid` and `base_year` fields. -/
inductive VParsed where
  | nonObject
  | obj (pathChecks : Option PathChecks) (validField : Option Bool)
      (baseYear : Option ℚ)
deriving DecidableEq, Repr

/-- `ensurePathChecks`: a non-object becomes the full fallback; an object
keeps its own fields, with the fallback `pathChecks` spliced in when its
own are missing. -/
def ensurePathChecks (n : Normalized) : VParsed → VResult
  | .nonObject => fallbackValidation n
  | .obj pcs vf base => ⟨vf, some (pcs.getD (fallbackPathChecks n)), base⟩

/-- The module-level session state. -/
structure Session where
  lastValidatedPath : Option String
  lastBaseYear : Option ℚ
deriving DecidableEq, Repr

/-- JavaScript truthiness of `displayPath` (`path.resolve` modeled as the
identity). -/
def truthyPath : Option String → Option String
  | none => none
  | some s => if s = "" then none else some s

/-- The session update performed inside `finish`: a result with
`valid:true` stores the resolved display path and base year, `valid:false`
clears both, and a result without a `valid` field leaves the session
untouched (the `hasOwnProperty` guard). -/
def sessionAfterFinish (prev : Session) (r : VResult) : Session :=
  match r.valid with
  | none => prev
  | some true =>
    ⟨truthyPath (match r.pathChecks with
        | some pcs => pcs.ifsFolder.displayPath
        | none => none),
      r.baseYear⟩
  | some false => ⟨none, none⟩

/-- Every way one `validate-ifs-folder` invocation can complete. -/
inductive ValidateOutcome where
  | noPath
  | spawnThrow
  | procError
  | closed (stderr : String) (codeZero : Bool) (parse : Option VParsed)
deriving DecidableEq, Repr

/-- The payload handed to `finish`, per completion outcome: every failure
path uses `createFallbackValidation`; a clean close parses stdout and runs
it through `ensurePathChecks`. -/
def validateResult (n : Normalized) (o : ValidateOutcome) : VResult :=
  match o with
  | .noPath => fallbackValidation n
  | .spawnThrow => fallbackValidation n
  | .procError => fallbackValidation n
  | .closed stderr codeZero parse =>
    if jsTrim stderr ≠ "" ∨ codeZero = false then fallbackValidation n
    else
      match parse with
      | none => fallbackValidation n
      | some vp => ensurePathChecks n vp

/-- The whole handler: the resolved result, and the session state after
the `finish` that resolved it. -/
def validateHandler (n : Normalized) (prev : Session) (o : ValidateOutcome) :
    VResult × Session :=
  let r := validateResult n o
  (r, sessionAfterFinish prev r)

/-- The failure outcomes enumerated by C9: spawn throw, the `'error'`
event, stderr content, nonzero exit, unparseable stdout — plus the
missing-path early exit. -/
def failureOutcome : ValidateOutcome → Prop
  | .noPath => True
  | .spawnThrow => True
  | .procError => True
  | .closed stderr codeZero parse =>
    jsTrim stderr ≠ "" ∨ codeZero = false ∨ parse = none

/-- C9: the `validate-ifs-folder` handler is total — for every raw payload
and every completion outcome it resolves with a result whose `pathChecks`
record (with its `ifsFolder`, `outputFolder`, `inputFile` entries) is
present, and on every failure outcome the result has `valid` equal to
false; no outcome rejects. -/
theorem validate_handler_total (raw : RawPayload) (prev : Session)
    (o : ValidateOutcome) :
    (validateHandler (normalizeValidationPayload raw) prev o).1.pathChecks ≠ none ∧
    (failureOutcome o →
      (validateHandler (normalizeValidationPayload raw) prev o).1.valid = some false) := by
  constructor
  · cases o with
    | noPath => simp [validateHandler, validateResult, fallbackValidation]
    | spawnThrow => simp [validateHandler, validateResult, fallbackValidation]
    | procError => simp [validateHandler, validateResult, fallbackValidation]
    | closed st cz p =>
      simp only [validateHandler, validateResult]
      by_cases h : jsTrim st ≠ "" ∨ cz = false
      · rw [if_pos h]
        simp [fallbackValidation]
      · rw [if_neg h]
        cases p with
        | none => simp [fallbackValidation]
        | some vp =>
          cases vp with
          | nonObject => simp [ensurePathChecks, fallbackValidation]
          | obj pcs vf base => simp [ensurePathChecks]
  · intro hfail
    cases o with
    | noPath => rfl
    | spawnThrow => rfl
    | procError => rfl
    | closed st cz p =>
      simp only [validateHandler, validateResult]
      unfold failureOutcome at hfail
      rcases hfail with h | h | h
      · rw [if_pos (Or.inl h)]
        rfl
      · rw [if_pos (Or.inr h)]
        rfl
      · by_cases hc : jsTrim st ≠ "" ∨ cz = false
        · rw [if_pos hc]
          rfl
        · rw [if_neg hc, h]
          rfl

theorem validate_handler_total_witness :
    (validateHandler (normalizeValidationPayload (.str " C:/ifs ")) ⟨none, none⟩
        (.closed "oops" true none)).1.pathChecks ≠ none ∧
    (validateHandler (normalizeValidationPayload (.str " C:/ifs ")) ⟨none, none⟩
        (.closed "oops" true none)).1.valid = some false := by
  have h := validate_handler_total (.str " C:/ifs ") ⟨none, none⟩
    (.closed "oops" true none)
  exact ⟨h.1, h.2 (Or.inr (Or.inr rfl))⟩

/-- A `pathChecks` record whose `ifsFolder.displayPath` is `C:/ifs`. -/
def pcsIfs : PathChecks := ⟨⟨some "C:/ifs"⟩, ⟨none⟩, ⟨none⟩⟩

/-- The normalized payload pointing at `C:/ifs`. -/
def nIfs : Normalized := ⟨some "C:/ifs", none, none⟩

/-- C10 fails on the code: after a validation that returns `valid:true`
(setting `lastValidatedPath`), a subsequent validation whose stdout parses
to an object carrying `pathChecks` but *no* `valid` field resolves without
touching the session — the `hasOwnProperty('valid')` guard skips the
update — so `lastValidatedPath` stays non-null even though the most recent
call did not return a result with `valid` equal to `true`. -/
theorem stale_validated_path :
    (validateHandler nIfs ⟨none, none⟩
        (.closed "" true (some (.obj (some pcsIfs) (some true) (some 2020))))).2 =
      ⟨some "C:/ifs", some 2020⟩ ∧
    (validateHandler nIfs ⟨some "C:/ifs", some 2020⟩
        (.closed "" true (some (.obj (some pcsIfs) none none)))).1.valid ≠
      some true ∧
    (validateHandler nIfs ⟨some "C:/ifs", some 2020⟩
        (.closed "" true (some (.obj (some pcsIfs) none none)))).2.lastValidatedPath =
      some "C:/ifs" := by
  refine ⟨rfl, ?_, rfl⟩
  have h : (validateHandler nIfs ⟨some "C:/ifs", some 2020⟩
      (.closed "" true (some (.obj (some pcsIfs) none none)))).1.valid = none := rfl
  rw [h]
  simp

/-- C10 (amended): a validation result with `valid:false` (including every
failure outcome) clears the session; a result *lacking* a `valid` field
leaves the session unchanged, so `lastValidatedPath` is non-null only when
the current result has `valid:true` or when it has no `valid` field and
the path was already set; and with a null `lastValidatedPath`, both
the `model_setup` handler and `launchIFsRun` return the error
"Please validate an IFs folder first." before spawning any subprocess. -/
theorem session_gating (n : Normalized) (prev : Session) (o : ValidateOutcome)
    (e b : Option ℚ) (od : Option String) :
    ((validateHandler n prev o).1.valid = some false →
      (validateHandler n prev o).2 = ⟨none, none⟩) ∧
    ((validateHandler n prev o).1.valid = none →
      (validateHandler n prev o).2 = prev) ∧
    ((validateHandler n prev o).2.lastValidatedPath ≠ none →
      (validateHandler n prev o).1.valid = some true ∨
        ((validateHandler n prev o).1.valid = none ∧
          prev.lastValidatedPath ≠ none)) ∧
    setupGuard none e b = .errResult "Please validate an IFs folder first." ∧
    launchGuard none e b od = .errResult "Please validate an IFs folder first." := by
  have h2 : (validateHandler n prev o).2 =
      sessionAfterFinish prev (validateHandler n prev o).1 := rfl
  refine ⟨?_, ?_, ?_, rfl, rfl⟩
  · intro hv
    rw [h2]
    simp only [sessionAfterFinish, hv]
  · intro hv
    rw [h2]
    simp only [sessionAfterFinish, hv]
  · intro hnn
    cases hv : (validateHandler n prev o).1.valid with
    | none =>
      refine Or.inr ⟨rfl, ?_⟩
      have hs : (validateHandler n prev o).2 = prev := by
        rw [h2]
        simp only [sessionAfterFinish, hv]
      rw [hs] at hnn
      exact hnn
    | some bv =>
      cases bv with
      | true => exact Or.inl rfl
      | false =>
        exfalso
        have hs : (validateHandler n prev o).2 = (⟨none, none⟩ : Session) := by
          rw [h2]
          simp only [sessionAfterFinish, hv]
        rw [hs] at hnn
        exact hnn rfl

theorem session_gating_witness :
    (validateHandler nIfs ⟨some "stale", some 2000⟩ .procError).2 = ⟨none, none⟩ ∧
    setupGuard none none none = .errResult "Please validate an IFs folder first." ∧
    launchGuard none none none none =
      .errResult "Please validate an IFs folder first." := by
  have h := session_gating nIfs ⟨some "stale", some 2000⟩ .procError none none none
  exact ⟨h.1 rfl, h.2.2.2.1, h.2.2.2.2⟩

end IfsDesktop
